import Mathlib

/-!
Shallow embedding of the tailing reader from `tail.go`.

The Go code interacts with the operating system (file reads, `os.Stat`,
`os.Open`, timers, a cancellation channel).  We model every such interaction
as an event supplied by an environment trace, and the `Read` loop as a
function that consumes the trace one event per interaction.  Time is modelled
as a natural-number clock that advances by the poll interval at each sleep,
which matches the Go code's own accounting (`wait += r.Poll`).  The Go zero
`time.Time` stored in `r.w` is modelled as `Option Nat` with `none` standing
for the zero value.
-/

namespace Tail

/-- Model of `os.FileInfo` as used by the code: an identity token
(`os.SameFile` compares device+inode), a size (`fi.Size()`) and a
modification time (`fi.ModTime()`). -/
structure FileInfo where
  id : Nat
  size : Int
  modTime : Nat
deriving DecidableEq

/-- Result of `os.Stat` on a path: the info, or an error which is either
"does not exist" (`os.IsNotExist`) or some other error, identified by a
code so that "verbatim" propagation is checkable. -/
inductive StatErr where
  | notExist
  | other (code : Nat)
deriving DecidableEq

/-- The `status` enumeration of `tail.go` (lines 171-178). -/
inductive Status where
  | nochange
  | modified
  | moved
  | truncated
deriving DecidableEq

/-- The `Reader` struct of `tail.go` (lines 40-57).  The `*os.File` handle
`f` is modelled by an identity token `hid` plus the handle's current read
position `pos` (maintained by the OS in reality).  Fields `fi`, `n`, `w`,
`m`, `Poll`, `EOFWait`, `Timeout` keep their source names. -/
structure Reader where
  fi : FileInfo
  hid : Nat
  pos : Int
  n : Int
  w : Option Nat
  m : Nat
  Poll : Nat
  EOFWait : Nat
  Timeout : Nat
deriving DecidableEq

/-- `(*Reader).status` (tail.go lines 180-206), as a function of the
result the environment returns for `os.Stat(r.f.Name())`.  Mirrors the Go
control flow exactly: not-exist maps to `moved`; any other stat error is
returned; a differing identity is `moved`; equal size with a newer mod
time is `truncated` (updating `r.m`); equal size otherwise is `nochange`;
larger size is `modified` (updating `r.m`); smaller size is `truncated`
(updating `r.m`). -/
def Reader.status (r : Reader) (res : Except StatErr FileInfo) :
    Except Nat (Status × Reader) :=
  match res with
  | .error .notExist => .ok (.moved, r)
  | .error (.other code) => .error code
  | .ok fi =>
    if fi.id ≠ r.fi.id then .ok (.moved, r)
    else if fi.size = r.n then
      if r.m < fi.modTime then .ok (.truncated, { r with m := fi.modTime })
      else .ok (.nochange, r)
    else if r.n < fi.size then .ok (.modified, { r with m := fi.modTime })
    else .ok (.truncated, { r with m := fi.modTime })

/-- Environment outcome of one `open` attempt (tail.go lines 59-74): the
`os.Open` call fails (with a not-exist flag for `os.IsNotExist`), or the
`f.Stat()` call on the freshly opened handle `hid` fails, or both succeed
yielding the new handle and its `FileInfo`. -/
inductive OpenOutcome where
  | openErr (ne : Bool) (code : Nat)
  | statErr (hid : Nat) (ne : Bool) (code : Nat)
  | ok (hid : Nat) (fi : FileInfo)
deriving DecidableEq

/-- `(*Reader).open` (tail.go lines 59-74).  Returns the possibly updated
reader (unchanged on failure) together with the list of handles that were
closed during the attempt.  On `os.Open` failure nothing is closed; when
`f.Stat` fails the freshly opened handle is closed; on success the old
handle is closed and the state is replaced:
`r.fi, r.f, r.n, r.w, r.m = fi, f, 0, time.Time{}, fi.ModTime()`
(a freshly opened handle reads from position 0). -/
def Reader.openF (r : Reader) (out : OpenOutcome) :
    Except (Bool × Nat) Reader × List Nat :=
  match out with
  | .openErr ne code => (.error (ne, code), [])
  | .statErr h ne code => (.error (ne, code), [h])
  | .ok h fi =>
      (.ok { r with fi := fi, hid := h, pos := 0, n := 0, w := none,
                    m := fi.modTime }, [r.hid])

/-- `(*Reader).Stat` (tail.go lines 76-78). -/
def Reader.Stat (r : Reader) : FileInfo := r.fi

/-- `(*Reader).Offset` (tail.go lines 163-165). -/
def Reader.Offset (r : Reader) : Int := r.n

/-- `(*Reader).Seek` (tail.go lines 155-161), as a function of the result
`(n, err)` that the environment returns for the underlying `r.f.Seek`.
When `err == nil` the tracked offset `r.n` is set to the returned
position; otherwise the state is untouched.  Returns the updated reader
and the pair handed back to the caller. -/
def Reader.Seek (r : Reader) (res : Int × Option Nat) :
    Reader × Int × Option Nat :=
  match res with
  | (p, none) => ({ r with pos := p, n := p }, p, none)
  | (p, some code) => (r, p, some code)

/-- `(*Reader).Close` (tail.go lines 167-169): closes the handle, touches
no field of the reader.  Returns the unchanged state and the closed
handle. -/
def Reader.close (r : Reader) : Reader × List Nat := (r, [r.hid])

/-- Error from the underlying `r.f.Read` other than success: `io.EOF` or
some other error (by code). -/
inductive RdErr where
  | eof
  | other (code : Nat)
deriving DecidableEq

/-- The error value the embedded `Read` hands back to its caller:
`io.EOF`, `ErrTimeout`, the error of a failed reopen (`fromOpen`, with
its `os.IsNotExist` flag), the non-not-exist error of `os.Stat` inside
`status` (`fromStat`), or a non-EOF error of the underlying read
(`fromRead`).  In Go these are distinct `error` values; keeping them in
distinct constructors makes "verbatim propagation" checkable. -/
inductive GErr where
  | eof
  | timeout
  | fromOpen (ne : Bool) (code : Nat)
  | fromStat (code : Nat)
  | fromRead (code : Nat)
deriving DecidableEq

deriving instance DecidableEq for Except

/-- One interaction of the `Read` loop with its environment:
`rd bs e` is the result of `r.f.Read(p)` (the bytes delivered and the
accompanying error), `op` the combined outcome of an `open` attempt,
`st` the `os.Stat` result consumed by `status`, and `wt c` the outcome of
a `select { case <-r.TimeoutC ...; case <-time.After(r.Poll) ... }`
(`c = true` when the cancellation channel fired first). -/
inductive Ev where
  | rd (bs : List Nat) (e : Option RdErr)
  | op (out : OpenOutcome)
  | st (res : Except StatErr FileInfo)
  | wt (cancel : Bool)
deriving DecidableEq

/-- Control location inside `Read` (tail.go lines 80-153): `outer` is the
top of the outer loop (about to call `r.f.Read`); `regA` is about to
attempt a reopen (line 93, reached at EOF with `r.w` set); `regAwait` is
the select of the missing-file wait (lines 102-108); `inL` is the top of
the inner polling loop `L` (line 116); `inLstat` is about to call
`r.status()` (line 129). -/
inductive Phase where
  | outer
  | regA
  | regAwait
  | inL
  | inLstat
deriving DecidableEq

/-- Result of a `Read` call: final reader state, final clock, the bytes
returned (`n` of Go's `(n, err)` is their count) and the error (`none`
for `nil`). -/
abbrev ReadOut := Reader × Nat × List Nat × Option GErr

/-- The body of `(*Reader).Read` (tail.go lines 80-153) as a trace
interpreter.  `c` is the current clock (`time.Now()`), `wa` the local
`wait` accumulator; both advance by `r.Poll` at each completed sleep,
exactly as the code accounts its own waiting.  The interpreter consumes
one event per interaction and returns `none` only when the trace is
exhausted or ill-sorted for the current control location (a real
execution would keep running).

Transcription, branch by branch:
* `outer`: `n, err := r.f.Read(p); r.n += int64(n)`; if `n > 0`, refresh
  `r.w` when it is set and return `(n, nil)`; at `(0, io.EOF)` enter
  `regA` when `r.w` is set and loop `L` otherwise; any other `(0, err)`
  — including `(0, nil)` — is returned as is (line 151).
* `regA`: `r.open(...)`; success continues the outer loop; a not-exist
  failure returns `io.EOF` when `time.Now().Sub(r.w) >= r.EOFWait`,
  returns `ErrTimeout` when `r.Timeout != 0 && wait > r.Timeout`, and
  otherwise sleeps (`regAwait`); any other failure is returned.
* `regAwait`: cancellation returns `ErrTimeout`; a completed sleep adds
  `r.Poll` to `wait` (and the clock) and continues the outer loop.
* `inL`: first the `r.Timeout` check, then the select: cancellation
  returns `ErrTimeout`; after a completed sleep, `break` to the outer
  loop when `r.w` is set, else run the classifier (`inLstat`).
* `inLstat`: a classifier error is returned; `nochange` continues `L`;
  `modified` breaks to the outer loop; `truncated` resets `r.n` to 0 and
  seeks the handle to its start; `moved` sets `r.w = time.Now()`. -/
def run (phase : Phase) (r : Reader) (c wa : Nat) (evs : List Ev) :
    Option ReadOut :=
  match phase with
  | .outer =>
    match evs with
    | .rd bs e :: rest =>
      let r1 : Reader := { r with pos := r.pos + bs.length, n := r.n + bs.length }
      if bs.length ≠ 0 then
        some ({ r1 with w := r1.w.map fun _ => c }, c, bs, none)
      else
        match e with
        | some .eof =>
          if r1.w.isSome then run .regA r1 c wa rest
          else run .inL r1 c wa rest
        | some (.other code) => some (r1, c, [], some (.fromRead code))
        | none => some (r1, c, [], none)
    | _ => none
  | .regA =>
    match evs with
    | .op out :: rest =>
      match (r.openF out).1 with
      | .ok r2 => run .outer r2 c wa rest
      | .error (ne, code) =>
        if ne then
          match r.w with
          | some w0 =>
            if r.EOFWait ≤ c - w0 then some (r, c, [], some .eof)
            else if r.Timeout ≠ 0 ∧ r.Timeout < wa then
              some (r, c, [], some .timeout)
            else run .regAwait r c wa rest
          | none => none
        else some (r, c, [], some (.fromOpen ne code))
    | _ => none
  | .regAwait =>
    match evs with
    | .wt cancel :: rest =>
      if cancel then some (r, c, [], some .timeout)
      else run .outer r (c + r.Poll) (wa + r.Poll) rest
    | _ => none
  | .inL =>
    if r.Timeout ≠ 0 ∧ r.Timeout < wa then some (r, c, [], some .timeout)
    else
      match evs with
      | .wt cancel :: rest =>
        if cancel then some (r, c, [], some .timeout)
        else if r.w.isSome then run .outer r (c + r.Poll) (wa + r.Poll) rest
        else run .inLstat r (c + r.Poll) (wa + r.Poll) rest
      | _ => none
  | .inLstat =>
    match evs with
    | .st res :: rest =>
      match r.status res with
      | .error code => some (r, c, [], some (.fromStat code))
      | .ok (s, r2) =>
        match s with
        | .nochange => run .inL r2 c wa rest
        | .modified => run .outer r2 c wa rest
        | .truncated => run .outer { r2 with n := 0, pos := 0 } c wa rest
        | .moved => run .outer { r2 with w := some c } c wa rest
    | _ => none

/-- `(*Reader).Read`: the local `wait` accumulator starts at zero for
every call (`var wait time.Duration`, line 81). -/
def Reader.Read (r : Reader) (c : Nat) (evs : List Ev) : Option ReadOut :=
  run .outer r c 0 evs

/-- Whether an event is a successful `open` attempt (the only interaction
that replaces the captured `FileInfo` snapshot). -/
def Ev.isOpenOk : Ev → Bool
  | .op (.ok _ _) => true
  | _ => false

/-! One-step evaluation equations for `run`, one per control location and
head event.  Each is definitional (`rfl`); they let proofs unfold the
interpreter one step at a time without looping. -/

lemma runEq_outer_nil (r : Reader) (c wa : Nat) :
    run .outer r c wa [] = none := rfl

lemma runEq_regA_nil (r : Reader) (c wa : Nat) :
    run .regA r c wa [] = none := rfl

lemma runEq_regAwait_nil (r : Reader) (c wa : Nat) :
    run .regAwait r c wa [] = none := rfl

lemma runEq_inL_nil (r : Reader) (c wa : Nat) :
    run .inL r c wa [] =
      if r.Timeout ≠ 0 ∧ r.Timeout < wa then some (r, c, [], some .timeout)
      else none := rfl

lemma runEq_inLstat_nil (r : Reader) (c wa : Nat) :
    run .inLstat r c wa [] = none := rfl

lemma runEq_outer_rd (r : Reader) (c wa : Nat) (bs : List Nat)
    (e : Option RdErr) (rest : List Ev) :
    run .outer r c wa (.rd bs e :: rest) =
      if bs.length ≠ 0 then
        some ({ r with pos := r.pos + bs.length, n := r.n + bs.length,
                       w := r.w.map fun _ => c }, c, bs, none)
      else
        match e with
        | some .eof =>
          if r.w.isSome then
            run .regA { r with pos := r.pos + bs.length, n := r.n + bs.length }
              c wa rest
          else
            run .inL { r with pos := r.pos + bs.length, n := r.n + bs.length }
              c wa rest
        | some (.other code) =>
          some ({ r with pos := r.pos + bs.length, n := r.n + bs.length },
                c, [], some (.fromRead code))
        | none =>
          some ({ r with pos := r.pos + bs.length, n := r.n + bs.length },
                c, [], none) := rfl

lemma runEq_outer_op (r : Reader) (c wa : Nat) (o : OpenOutcome)
    (rest : List Ev) : run .outer r c wa (.op o :: rest) = none := rfl

lemma runEq_outer_st (r : Reader) (c wa : Nat)
    (res : Except StatErr FileInfo) (rest : List Ev) :
    run .outer r c wa (.st res :: rest) = none := rfl

lemma runEq_outer_wt (r : Reader) (c wa : Nat) (b : Bool) (rest : List Ev) :
    run .outer r c wa (.wt b :: rest) = none := rfl

lemma runEq_regA_op (r : Reader) (c wa : Nat) (o : OpenOutcome)
    (rest : List Ev) :
    run .regA r c wa (.op o :: rest) =
      match (r.openF o).1 with
      | .ok r2 => run .outer r2 c wa rest
      | .error (ne, code) =>
        if ne then
          match r.w with
          | some w0 =>
            if r.EOFWait ≤ c - w0 then some (r, c, [], some .eof)
            else if r.Timeout ≠ 0 ∧ r.Timeout < wa then
              some (r, c, [], some .timeout)
            else run .regAwait r c wa rest
          | none => none
        else some (r, c, [], some (.fromOpen ne code)) := rfl

lemma runEq_regA_rd (r : Reader) (c wa : Nat) (bs : List Nat)
    (e : Option RdErr) (rest : List Ev) :
    run .regA r c wa (.rd bs e :: rest) = none := rfl

lemma runEq_regA_st (r : Reader) (c wa : Nat)
    (res : Except StatErr FileInfo) (rest : List Ev) :
    run .regA r c wa (.st res :: rest) = none := rfl

lemma runEq_regA_wt (r : Reader) (c wa : Nat) (b : Bool) (rest : List Ev) :
    run .regA r c wa (.wt b :: rest) = none := rfl

lemma runEq_regAwait_wt (r : Reader) (c wa : Nat) (b : Bool)
    (rest : List Ev) :
    run .regAwait r c wa (.wt b :: rest) =
      if b then some (r, c, [], some .timeout)
      else run .outer r (c + r.Poll) (wa + r.Poll) rest := rfl

lemma runEq_regAwait_rd (r : Reader) (c wa : Nat) (bs : List Nat)
    (e : Option RdErr) (rest : List Ev) :
    run .regAwait r c wa (.rd bs e :: rest) = none := rfl

lemma runEq_regAwait_op (r : Reader) (c wa : Nat) (o : OpenOutcome)
    (rest : List Ev) : run .regAwait r c wa (.op o :: rest) = none := rfl

lemma runEq_regAwait_st (r : Reader) (c wa : Nat)
    (res : Except StatErr FileInfo) (rest : List Ev) :
    run .regAwait r c wa (.st res :: rest) = none := rfl

lemma runEq_inL_wt (r : Reader) (c wa : Nat) (b : Bool) (rest : List Ev) :
    run .inL r c wa (.wt b :: rest) =
      if r.Timeout ≠ 0 ∧ r.Timeout < wa then some (r, c, [], some .timeout)
      else if b then some (r, c, [], some .timeout)
      else if r.w.isSome then run .outer r (c + r.Poll) (wa + r.Poll) rest
      else run .inLstat r (c + r.Poll) (wa + r.Poll) rest := rfl

lemma runEq_inL_rd (r : Reader) (c wa : Nat) (bs : List Nat)
    (e : Option RdErr) (rest : List Ev) :
    run .inL r c wa (.rd bs e :: rest) =
      if r.Timeout ≠ 0 ∧ r.Timeout < wa then some (r, c, [], some .timeout)
      else none := rfl

lemma runEq_inL_op (r : Reader) (c wa : Nat) (o : OpenOutcome)
    (rest : List Ev) :
    run .inL r c wa (.op o :: rest) =
      if r.Timeout ≠ 0 ∧ r.Timeout < wa then some (r, c, [], some .timeout)
      else none := rfl

lemma runEq_inL_st (r : Reader) (c wa : Nat)
    (res : Except StatErr FileInfo) (rest : List Ev) :
    run .inL r c wa (.st res :: rest) =
      if r.Timeout ≠ 0 ∧ r.Timeout < wa then some (r, c, [], some .timeout)
      else none := rfl

lemma runEq_inLstat_st (r : Reader) (c wa : Nat)
    (res : Except StatErr FileInfo) (rest : List Ev) :
    run .inLstat r c wa (.st res :: rest) =
      match r.status res with
      | .error code => some (r, c, [], some (.fromStat code))
      | .ok (s, r2) =>
        match s with
        | .nochange => run .inL r2 c wa rest
        | .modified => run .outer r2 c wa rest
        | .truncated => run .outer { r2 with n := 0, pos := 0 } c wa rest
        | .moved => run .outer { r2 with w := some c } c wa rest := rfl

lemma runEq_inLstat_rd (r : Reader) (c wa : Nat) (bs : List Nat)
    (e : Option RdErr) (rest : List Ev) :
    run .inLstat r c wa (.rd bs e :: rest) = none := rfl

lemma runEq_inLstat_op (r : Reader) (c wa : Nat) (o : OpenOutcome)
    (rest : List Ev) : run .inLstat r c wa (.op o :: rest) = none := rfl

lemma runEq_inLstat_wt (r : Reader) (c wa : Nat) (b : Bool)
    (rest : List Ev) : run .inLstat r c wa (.wt b :: rest) = none := rfl

/-- The classifier only ever rewrites `r.m` (the stored `lastModTime`):
whenever `status` succeeds, the returned reader agrees with the input on
every other field. -/
lemma status_ok_frame (r : Reader) (res : Except StatErr FileInfo)
    (s : Status) (r2 : Reader) (h : r.status res = .ok (s, r2)) :
    r2 = { r with m := r2.m } := by
  rcases res with e | fi
  · rcases e with _ | code
    · simp only [Reader.status, Except.ok.injEq, Prod.mk.injEq] at h
      rcases h with ⟨-, rfl⟩
      rfl
    · exact absurd h (by simp [Reader.status])
  · simp only [Reader.status] at h
    split_ifs at h <;>
      (simp only [Except.ok.injEq, Prod.mk.injEq] at h; rcases h with ⟨-, rfl⟩; rfl)

/-- Trace invariants of the read loop, proved in one induction over the
event trace: (1) an `io.EOF` return delivers no bytes and happens only
with `r.w` set and the elapsed time since it at least `r.EOFWait`;
(2) a `(0, nil)` return only happens when the underlying `r.f.Read`
itself produced `(0, nil)`; (3) the captured `FileInfo` snapshot changes
only at a successful `open`. -/
lemma run_main (evs : List Ev) :
    ∀ (phase : Phase) (r : Reader) (c wa : Nat) (out : ReadOut),
    run phase r c wa evs = some out →
    ((out.2.2.2 = some .eof →
        out.2.2.1 = [] ∧ ∃ w0, out.1.w = some w0 ∧ out.1.EOFWait ≤ out.2.1 - w0)
    ∧ (out.2.2.1 = [] → out.2.2.2 = none → Ev.rd [] none ∈ evs)
    ∧ ((∀ ev ∈ evs, ev.isOpenOk = false) → out.1.fi = r.fi)) := by
  induction evs with
  | nil =>
    intro phase r c wa out h
    cases phase
    case outer => rw [runEq_outer_nil] at h; exact Option.noConfusion h
    case regA => rw [runEq_regA_nil] at h; exact Option.noConfusion h
    case regAwait => rw [runEq_regAwait_nil] at h; exact Option.noConfusion h
    case inLstat => rw [runEq_inLstat_nil] at h; exact Option.noConfusion h
    case inL =>
      rw [runEq_inL_nil] at h
      split at h
      · obtain rfl := Option.some.inj h
        exact ⟨fun heof => absurd heof (by simp), fun _ hco => absurd hco (by simp),
               fun _ => rfl⟩
      · exact Option.noConfusion h
  | cons ev rest ih =>
    intro phase r c wa out h
    cases phase
    case outer =>
      cases ev
      case rd bs e =>
        rw [runEq_outer_rd] at h
        split at h
        case isTrue hbs =>
          obtain rfl := Option.some.inj h
          refine ⟨fun heof => absurd heof (by simp), fun hco _ => ?_, fun _ => rfl⟩
          exact absurd (by rw [show bs = [] from hco]; rfl) hbs
        case isFalse hbs =>
          have hbs0 : bs = [] := List.length_eq_zero.mp (not_ne_iff.mp hbs)
          subst hbs0
          split at h
          case h_1 =>
            split at h
            case isTrue hw =>
              obtain ⟨h1, h2, h3⟩ := ih .regA _ c wa out h
              exact ⟨h1, fun hco hnone => List.mem_cons_of_mem _ (h2 hco hnone),
                     fun hall => by
                       simpa using h3 (fun e he => hall e (List.mem_cons_of_mem _ he))⟩
            case isFalse hw =>
              obtain ⟨h1, h2, h3⟩ := ih .inL _ c wa out h
              exact ⟨h1, fun hco hnone => List.mem_cons_of_mem _ (h2 hco hnone),
                     fun hall => by
                       simpa using h3 (fun e he => hall e (List.mem_cons_of_mem _ he))⟩
          case h_2 code =>
            obtain rfl := Option.some.inj h
            exact ⟨fun heof => absurd heof (by simp),
                   fun _ hnone => absurd hnone (by simp), fun _ => rfl⟩
          case h_3 =>
            obtain rfl := Option.some.inj h
            exact ⟨fun heof => absurd heof (by simp),
                   fun _ _ => List.mem_cons_self _ _, fun _ => rfl⟩
      case op o => rw [runEq_outer_op] at h; exact Option.noConfusion h
      case st res => rw [runEq_outer_st] at h; exact Option.noConfusion h
      case wt b => rw [runEq_outer_wt] at h; exact Option.noConfusion h
    case regA =>
      cases ev
      case op o =>
        rw [runEq_regA_op] at h
        split at h
        case h_1 r2 heq =>
          obtain ⟨h1, h2, h3⟩ := ih .outer r2 c wa out h
          refine ⟨h1, fun hco hnone => List.mem_cons_of_mem _ (h2 hco hnone),
                  fun hall => ?_⟩
          rcases o with ⟨ne, code⟩ | ⟨hh, ne, code⟩ | ⟨hh, fi⟩
          · exact absurd heq (by simp [Reader.openF])
          · exact absurd heq (by simp [Reader.openF])
          · exact absurd (hall _ (List.mem_cons_self _ _)) (by simp [Ev.isOpenOk])
        case h_2 ne code heq =>
          split at h
          case isTrue hne =>
            split at h
            case h_1 w0 heqw =>
              split at h
              case isTrue hb =>
                obtain rfl := Option.some.inj h
                exact ⟨fun _ => ⟨rfl, w0, heqw, hb⟩,
                       fun _ hnone => absurd hnone (by simp), fun _ => rfl⟩
              case isFalse hb =>
                split at h
                case isTrue ht =>
                  obtain rfl := Option.some.inj h
                  exact ⟨fun heof => absurd heof (by simp),
                         fun _ hnone => absurd hnone (by simp), fun _ => rfl⟩
                case isFalse ht =>
                  obtain ⟨h1, h2, h3⟩ := ih .regAwait r c wa out h
                  exact ⟨h1, fun hco hnone => List.mem_cons_of_mem _ (h2 hco hnone),
                         fun hall => h3 (fun e he => hall e (List.mem_cons_of_mem _ he))⟩
            case h_2 heqw => exact Option.noConfusion h
          case isFalse hne =>
            obtain rfl := Option.some.inj h
            exact ⟨fun heof => absurd heof (by simp),
                   fun _ hnone => absurd hnone (by simp), fun _ => rfl⟩
      case rd bs e => rw [runEq_regA_rd] at h; exact Option.noConfusion h
      case st res => rw [runEq_regA_st] at h; exact Option.noConfusion h
      case wt b => rw [runEq_regA_wt] at h; exact Option.noConfusion h
    case regAwait =>
      cases ev
      case wt b =>
        rw [runEq_regAwait_wt] at h
        split at h
        case isTrue hb =>
          obtain rfl := Option.some.inj h
          exact ⟨fun heof => absurd heof (by simp),
                 fun _ hnone => absurd hnone (by simp), fun _ => rfl⟩
        case isFalse hb =>
          obtain ⟨h1, h2, h3⟩ := ih .outer r (c + r.Poll) (wa + r.Poll) out h
          exact ⟨h1, fun hco hnone => List.mem_cons_of_mem _ (h2 hco hnone),
                 fun hall => h3 (fun e he => hall e (List.mem_cons_of_mem _ he))⟩
      case rd bs e => rw [runEq_regAwait_rd] at h; exact Option.noConfusion h
      case op o => rw [runEq_regAwait_op] at h; exact Option.noConfusion h
      case st res => rw [runEq_regAwait_st] at h; exact Option.noConfusion h
    case inL =>
      cases ev
      case wt b =>
        rw [runEq_inL_wt] at h
        split at h
        case isTrue ht =>
          obtain rfl := Option.some.inj h
          exact ⟨fun heof => absurd heof (by simp),
                 fun _ hnone => absurd hnone (by simp), fun _ => rfl⟩
        case isFalse ht =>
          split at h
          case isTrue hb =>
            obtain rfl := Option.some.inj h
            exact ⟨fun heof => absurd heof (by simp),
                   fun _ hnone => absurd hnone (by simp), fun _ => rfl⟩
          case isFalse hb =>
            split at h
            case isTrue hw =>
              obtain ⟨h1, h2, h3⟩ := ih .outer r (c + r.Poll) (wa + r.Poll) out h
              exact ⟨h1, fun hco hnone => List.mem_cons_of_mem _ (h2 hco hnone),
                     fun hall => h3 (fun e he => hall e (List.mem_cons_of_mem _ he))⟩
            case isFalse hw =>
              obtain ⟨h1, h2, h3⟩ := ih .inLstat r (c + r.Poll) (wa + r.Poll) out h
              exact ⟨h1, fun hco hnone => List.mem_cons_of_mem _ (h2 hco hnone),
                     fun hall => h3 (fun e he => hall e (List.mem_cons_of_mem _ he))⟩
      case rd bs e =>
        rw [runEq_inL_rd] at h
        split at h
        · obtain rfl := Option.some.inj h
          exact ⟨fun heof => absurd heof (by simp),
                 fun _ hnone => absurd hnone (by simp), fun _ => rfl⟩
        · exact Option.noConfusion h
      case op o =>
        rw [runEq_inL_op] at h
        split at h
        · obtain rfl := Option.some.inj h
          exact ⟨fun heof => absurd heof (by simp),
                 fun _ hnone => absurd hnone (by simp), fun _ => rfl⟩
        · exact Option.noConfusion h
      case st res =>
        rw [runEq_inL_st] at h
        split at h
        · obtain rfl := Option.some.inj h
          exact ⟨fun heof => absurd heof (by simp),
                 fun _ hnone => absurd hnone (by simp), fun _ => rfl⟩
        · exact Option.noConfusion h
    case inLstat =>
      cases ev
      case st res =>
        rw [runEq_inLstat_st] at h
        split at h
        case h_1 code heq =>
          obtain rfl := Option.some.inj h
          exact ⟨fun heof => absurd heof (by simp),
                 fun _ hnone => absurd hnone (by simp), fun _ => rfl⟩
        case h_2 s r2 heq =>
          have hframe := status_ok_frame _ _ _ _ heq
          split at h
          case h_1 =>
            obtain ⟨h1, h2, h3⟩ := ih .inL r2 c wa out h
            refine ⟨h1, fun hco hnone => List.mem_cons_of_mem _ (h2 hco hnone),
                    fun hall => ?_⟩
            have := h3 (fun e he => hall e (List.mem_cons_of_mem _ he))
            rw [this, hframe]
          case h_2 =>
            obtain ⟨h1, h2, h3⟩ := ih .outer r2 c wa out h
            refine ⟨h1, fun hco hnone => List.mem_cons_of_mem _ (h2 hco hnone),
                    fun hall => ?_⟩
            have := h3 (fun e he => hall e (List.mem_cons_of_mem _ he))
            rw [this, hframe]
          case h_3 =>
            obtain ⟨h1, h2, h3⟩ := ih .outer _ c wa out h
            refine ⟨h1, fun hco hnone => List.mem_cons_of_mem _ (h2 hco hnone),
                    fun hall => ?_⟩
            have := h3 (fun e he => hall e (List.mem_cons_of_mem _ he))
            rw [this, show ({ r2 with n := 0, pos := 0 } : Reader).fi = r2.fi from rfl,
               hframe]
          case h_4 =>
            obtain ⟨h1, h2, h3⟩ := ih .outer _ c wa out h
            refine ⟨h1, fun hco hnone => List.mem_cons_of_mem _ (h2 hco hnone),
                    fun hall => ?_⟩
            have := h3 (fun e he => hall e (List.mem_cons_of_mem _ he))
            rw [this, show ({ r2 with w := some c } : Reader).fi = r2.fi from rfl,
               hframe]
      case rd bs e => rw [runEq_inLstat_rd] at h; exact Option.noConfusion h
      case op o => rw [runEq_inLstat_op] at h; exact Option.noConfusion h
      case wt b => rw [runEq_inLstat_wt] at h; exact Option.noConfusion h

/-- A sample reader freshly opened on an empty file (identity 1), with a
250 tick poll interval, a 500 tick EOF wait budget and no overall
timeout.  Used for the concrete scenarios below. -/
def rEx : Reader :=
  { fi := ⟨1, 0, 0⟩, hid := 1, pos := 0, n := 0, w := none, m := 0,
    Poll := 250, EOFWait := 500, Timeout := 0 }

/-- Claim C1: while attached, one classification call yields exactly one
of the four outcomes, characterised by: missing path or differing
identity gives `moved`; same identity and size over the offset gives
`modified` (appended); size under the offset, or equal size with a newer
modification time, gives `truncated`, updating the stored `lastModTime`;
equal size without a newer modification time gives `nochange`.  The six
cases are mutually exclusive and exhaustive, and `Reader.status` is a
function, so no call yields more than one outcome. -/
theorem claim1_classification (r : Reader) (fi : FileInfo) :
    (r.status (.error .notExist) = .ok (.moved, r))
    ∧ (fi.id ≠ r.fi.id → r.status (.ok fi) = .ok (.moved, r))
    ∧ (fi.id = r.fi.id → r.n < fi.size →
        r.status (.ok fi) = .ok (.modified, { r with m := fi.modTime }))
    ∧ (fi.id = r.fi.id → fi.size < r.n →
        r.status (.ok fi) = .ok (.truncated, { r with m := fi.modTime }))
    ∧ (fi.id = r.fi.id → fi.size = r.n → r.m < fi.modTime →
        r.status (.ok fi) = .ok (.truncated, { r with m := fi.modTime }))
    ∧ (fi.id = r.fi.id → fi.size = r.n → ¬ r.m < fi.modTime →
        r.status (.ok fi) = .ok (.nochange, r)) := by
  refine ⟨rfl, ?_, ?_, ?_, ?_, ?_⟩
  · intro hid
    simp [Reader.status, hid]
  · intro hid hlt
    have hne : ¬ fi.size = r.n := by omega
    simp [Reader.status, hid, hne, hlt]
  · intro hid hlt
    have hne : ¬ fi.size = r.n := by omega
    have hnl : ¬ r.n < fi.size := by omega
    simp [Reader.status, hid, hne, hnl]
  · intro hid heq hm
    simp [Reader.status, hid, heq, hm]
  · intro hid heq hm
    simp [Reader.status, hid, heq, hm]

/-- Witness for C1: concrete classifications — growth from offset 0 to
size 7 is `modified`; equal size 0 with modification time 3 newer than
the stored 0 is `truncated` with the stored time updated. -/
theorem claim1_classification_witness :
    rEx.status (.ok ⟨1, 7, 3⟩) = .ok (.modified, { rEx with m := 3 })
    ∧ rEx.status (.ok ⟨1, 0, 3⟩) = .ok (.truncated, { rEx with m := 3 }) :=
  ⟨(claim1_classification rEx ⟨1, 7, 3⟩).2.2.1 rfl (by decide),
   (claim1_classification rEx ⟨1, 0, 3⟩).2.2.2.2.1 rfl rfl (by decide)⟩

/-- Claim C5: a successful `open` captures the new file's metadata
snapshot and identity, resets the offset to 0, clears `missingSince`
(`w := none`), sets `lastModTime` from the new metadata, and closes the
previous handle only then; when `os.Open` fails nothing is closed and no
state changes, and when the post-open `f.Stat` fails only the freshly
opened handle is closed — the error is handed back and the reader keeps
its previous handle and state. -/
theorem claim5_open_contract (r : Reader) :
    (∀ h fi, r.openF (.ok h fi) =
        (.ok { r with fi := fi, hid := h, pos := 0, n := 0, w := none,
                      m := fi.modTime }, [r.hid]))
    ∧ (∀ ne code, r.openF (.openErr ne code) = (.error (ne, code), []))
    ∧ (∀ h ne code, r.openF (.statErr h ne code) = (.error (ne, code), [h])) :=
  ⟨fun _ _ => rfl, fun _ _ => rfl, fun _ _ _ => rfl⟩

/-- Claim C6: a stat failure other than not-found is returned verbatim
from classification, and the poll loop returns it to the `Read` caller
on first occurrence, consuming nothing further from the trace; not-found
is never an error from classification — it maps to `moved`. -/
theorem claim6_stat_error_surfaced (r : Reader) (code : Nat) (c wa : Nat)
    (rest : List Ev) :
    (r.status (.error (.other code)) = .error code)
    ∧ (r.status (.error .notExist) = .ok (.moved, r))
    ∧ (run .inLstat r c wa (.st (.error (.other code)) :: rest)
        = some (r, c, [], some (.fromStat code))) :=
  ⟨rfl, rfl, rfl⟩

/-- Claim C8: `Seek` updates the tracked offset to exactly the position
the underlying seek returned on success, leaves it unchanged on failure,
and never touches `missingSince`, the captured identity/metadata
snapshot, or `lastModTime`. -/
theorem claim8_seek_effects (r : Reader) (p : Int) (code : Nat) :
    (r.Seek (p, none) = ({ r with pos := p, n := p }, p, none))
    ∧ (r.Seek (p, some code) = (r, p, some code))
    ∧ (∀ res : Int × Option Nat,
        (r.Seek res).1.w = r.w ∧ (r.Seek res).1.fi = r.fi
          ∧ (r.Seek res).1.m = r.m) := by
  refine ⟨rfl, rfl, ?_⟩
  intro res
  rcases res with ⟨p', e⟩
  rcases e with _ | c <;> exact ⟨rfl, rfl, rfl⟩

/-- Claim C3: when the classifier reports `truncated` the loop resets
the offset to 0 and seeks the same handle to its start, and the outer
loop resumes reading that handle from position 0.  Concretely: on the
sample reader, 5 delivered bytes give offset 5; after a truncation to
size 3 is classified, the next read delivers the 3 new bytes and the
offset is 3, not 8, on the unchanged handle. -/
theorem claim3_truncation_reset :
    (∀ (r r2 : Reader) (fi : FileInfo) (c wa : Nat) (rest : List Ev),
        r.status (.ok fi) = .ok (.truncated, r2) →
        run .inLstat r c wa (.st (.ok fi) :: rest)
            = run .outer { r2 with n := 0, pos := 0 } c wa rest
          ∧ ({ r2 with n := 0, pos := 0 } : Reader).hid = r.hid
          ∧ ({ r2 with n := 0, pos := 0 } : Reader).n = 0
          ∧ ({ r2 with n := 0, pos := 0 } : Reader).pos = 0)
    ∧ (rEx.Read 0 [.rd [10, 20, 30, 40, 50] none]
        = some ({ rEx with pos := 5, n := 5 }, 0, [10, 20, 30, 40, 50], none))
    ∧ (Reader.Offset { rEx with pos := 5, n := 5 } = 5)
    ∧ (Reader.Read { rEx with pos := 5, n := 5 } 0
        [.rd [] (some .eof), .wt false, .st (.ok ⟨1, 3, 7⟩),
         .rd [97, 98, 99] none]
        = some ({ rEx with pos := 3, n := 3, m := 7 }, 250, [97, 98, 99], none))
    ∧ (Reader.Offset { rEx with pos := 3, n := 3, m := 7 } = 3)
    ∧ (({ rEx with pos := 3, n := 3, m := 7 } : Reader).hid = rEx.hid) := by
  refine ⟨?_, by decide, by decide, by decide, by decide, by decide⟩
  intro r r2 fi c wa rest h
  refine ⟨?_, ?_, rfl, rfl⟩
  · rw [runEq_inLstat_st, h]
  · rw [status_ok_frame r _ _ r2 h]

/-- Witness for C3: the truncation step of the concrete scenario,
through the general part of the theorem. -/
theorem claim3_truncation_reset_witness :
    run .inLstat { rEx with pos := 5, n := 5 } 250 250 [.st (.ok ⟨1, 3, 7⟩)]
        = run .outer { rEx with pos := 0, n := 0, m := 7 } 250 250 []
      ∧ ({ rEx with pos := 0, n := 0, m := 7 } : Reader).hid
          = ({ rEx with pos := 5, n := 5 } : Reader).hid := by
  have h := claim3_truncation_reset.1 { rEx with pos := 5, n := 5 }
    { rEx with pos := 5, n := 5, m := 7 } ⟨1, 3, 7⟩ 250 250 [] (by decide)
  exact ⟨h.1, h.2.1⟩

/-- Claim C9: a `moved` classification (differing identity or missing
path) sets `missingSince` to the current time and breaks to the outer
loop, whose first interaction is always a physical read of the old,
unchanged handle — never a reopen; if that read returns bytes they are
delivered and `missingSince` is refreshed to the delivery time. -/
theorem claim9_moved_then_drain (r : Reader) (fi : FileInfo) (c wa : Nat)
    (rest : List Ev) (bs : List Nat) (e : Option RdErr) (o : OpenOutcome) :
    (fi.id ≠ r.fi.id →
        run .inLstat r c wa (.st (.ok fi) :: rest)
          = run .outer { r with w := some c } c wa rest)
    ∧ (run .inLstat r c wa (.st (.error .notExist) :: rest)
        = run .outer { r with w := some c } c wa rest)
    ∧ (({ r with w := some c } : Reader).hid = r.hid)
    ∧ (run .outer r c wa (.op o :: rest) = none)
    ∧ (bs ≠ [] → r.w.isSome = true →
        run .outer r c wa (.rd bs e :: rest)
          = some ({ r with pos := r.pos + bs.length, n := r.n + bs.length,
                           w := some c }, c, bs, none)) := by
  refine ⟨?_, rfl, rfl, runEq_outer_op r c wa o rest, ?_⟩
  · intro hid
    have hst : r.status (.ok fi) = .ok (.moved, r) := by
      simp [Reader.status, hid]
    rw [runEq_inLstat_st, hst]
  · intro hbs hw
    obtain ⟨w0, hw0⟩ := Option.isSome_iff_exists.mp hw
    have hlen : bs.length ≠ 0 := fun h0 => hbs (List.length_eq_zero.mp h0)
    rw [runEq_outer_rd, if_pos hlen, hw0]
    rfl

/-- Witness for C9: a concrete `moved` transition on the sample reader,
and a concrete post-`moved` read that delivers one byte from the old
handle and refreshes `missingSince`. -/
theorem claim9_moved_then_drain_witness :
    run .inLstat rEx 250 250 [.st (.ok ⟨9, 0, 0⟩)]
        = run .outer { rEx with w := some 250 } 250 250 []
    ∧ run .outer { rEx with w := some 250 } 300 250 [.rd [55] none]
        = some ({ rEx with pos := 1, n := 1, w := some 300 }, 300, [55], none) :=
  ⟨(claim9_moved_then_drain rEx ⟨9, 0, 0⟩ 250 250 [] [] none
      (.openErr true 0)).1 (by decide),
   (claim9_moved_then_drain { rEx with w := some 250 } ⟨9, 0, 0⟩ 300 250 []
      [55] none (.openErr true 0)).2.2.2.2 (by decide) (by decide)⟩

/-- Claim C4, amended: cancellation observed at a wait point returns the
distinct timeout error immediately with the reader's state exactly as it
was (so a later `Read` retries the same wait); the duration-based
timeout is observed at the next checkpoint after the accumulated wait
exceeds it and then likewise returns the timeout error unchanged —
except that at the missing-file checkpoint the end-of-stream budget
check comes first, so the timeout error is produced there only when the
budget has not also expired. -/
theorem claim4_timeout_checkpoints (r : Reader) (c wa : Nat)
    (rest evs : List Ev) :
    (run .regAwait r c wa (.wt true :: rest) = some (r, c, [], some .timeout))
    ∧ (run .inL r c wa (.wt true :: rest) = some (r, c, [], some .timeout))
    ∧ (r.Timeout ≠ 0 → r.Timeout < wa →
        run .inL r c wa evs = some (r, c, [], some .timeout))
    ∧ (∀ w0 code, r.w = some w0 → c - w0 < r.EOFWait → r.Timeout ≠ 0 →
        r.Timeout < wa →
        run .regA r c wa (.op (.openErr true code) :: rest)
          = some (r, c, [], some .timeout)) := by
  refine ⟨by simp [runEq_regAwait_wt], ?_, ?_, ?_⟩
  · by_cases hT : (r.Timeout ≠ 0 ∧ r.Timeout < wa) <;> simp [runEq_inL_wt, hT]
  · intro h1 h2
    cases evs with
    | nil => rw [runEq_inL_nil, if_pos ⟨h1, h2⟩]
    | cons ev rest' =>
      cases ev with
      | rd bs e => rw [runEq_inL_rd, if_pos ⟨h1, h2⟩]
      | op o => rw [runEq_inL_op, if_pos ⟨h1, h2⟩]
      | st res => rw [runEq_inL_st, if_pos ⟨h1, h2⟩]
      | wt b => rw [runEq_inL_wt, if_pos ⟨h1, h2⟩]
  · intro w0 code hw hb h1 h2
    have hnb : ¬ r.EOFWait ≤ c - w0 := by omega
    simp [runEq_regA_op, Reader.openF, hw, hnb, h1, h2]

/-- A reader in missing mode (`w = some 0`) with poll interval 250, an
EOF wait budget of 200 and an overall timeout of 100, used to exhibit
the checkpoint ordering of C4. -/
def rMiss : Reader :=
  { fi := ⟨1, 0, 0⟩, hid := 1, pos := 0, n := 0, w := some 0, m := 0,
    Poll := 250, EOFWait := 200, Timeout := 100 }

/-- Counterexample to C4 as stated: the overall timeout (100) is
exceeded during the single completed poll sleep (250), yet the first
trace returns end-of-stream (the budget check precedes the timeout check
at the missing-file checkpoint, tail.go lines 95-99), and the second
trace returns bytes — a successful read — because the timeout is
rechecked only at the next wait. -/
theorem claim4_counterexample :
    rMiss.Read 0
        [.rd [] (some .eof), .op (.openErr true 2), .wt false,
         .rd [] (some .eof), .op (.openErr true 2)]
      = some (rMiss, 250, [], some .eof)
    ∧ rMiss.Read 0
        [.rd [] (some .eof), .op (.openErr true 2), .wt false, .rd [5] none]
      = some ({ rMiss with pos := 1, n := 1, w := some 250 }, 250, [5], none)
    ∧ rMiss.Timeout ≠ 0 ∧ rMiss.Timeout < rMiss.Poll := by
  refine ⟨by decide, by decide, by decide, by decide⟩

/-- Witness for the amended C4: at a missing-file checkpoint where the
budget has not expired but the accumulated wait exceeds the timeout, the
call returns the timeout error with the state untouched. -/
theorem claim4_timeout_checkpoints_witness :
    run .regA { rEx with w := some 0, Timeout := 100 } 250 250
        [.op (.openErr true 2)]
      = some ({ rEx with w := some 0, Timeout := 100 }, 250, [],
              some .timeout) :=
  (claim4_timeout_checkpoints { rEx with w := some 0, Timeout := 100 }
      250 250 [] []).2.2.2 0 2 rfl (by decide) (by decide) (by decide)

/-- Claim C2, amended: when a reopen fails with not-found and the
elapsed time since `missingSince` reaches the budget, `Read` returns the
clean end-of-stream signal; and every end-of-stream return happens
through that path — no bytes are delivered with it and the reader is in
missing mode at the return, with elapsed time at least the budget.  (A
`Read` that begins outside missing mode can still end in end-of-stream
by entering missing mode during the same call.) -/
theorem claim2_eof_only_via_budget (phase : Phase) (r : Reader) (c wa : Nat)
    (evs rest : List Ev) (out : ReadOut) :
    (∀ w0 code, r.w = some w0 → r.EOFWait ≤ c - w0 →
        run .regA r c wa (.op (.openErr true code) :: rest)
          = some (r, c, [], some .eof))
    ∧ (run phase r c wa evs = some out → out.2.2.2 = some .eof →
        out.2.2.1 = [] ∧ ∃ w0, out.1.w = some w0
          ∧ out.1.EOFWait ≤ out.2.1 - w0) := by
  constructor
  · intro w0 code hw hb
    simp [runEq_regA_op, Reader.openF, hw, hb]
  · intro h heof
    exact (run_main evs phase r c wa out h).1 heof

/-- Counterexample to C2 as stated: a `Read` call on a reader that is
NOT in missing mode (`w = none`) still returns end-of-stream, because
the reader enters missing mode during the call (`moved` at clock 250)
and the budget (500) expires at clock 750 within the same call. -/
theorem claim2_counterexample :
    rEx.w = none
    ∧ rEx.Read 0
        [.rd [] (some .eof), .wt false, .st (.error .notExist),
         .rd [] (some .eof), .op (.openErr true 2), .wt false,
         .rd [] (some .eof), .op (.openErr true 2), .wt false,
         .rd [] (some .eof), .op (.openErr true 2)]
        = some ({ rEx with w := some 250 }, 750, [], some .eof) :=
  ⟨rfl, by decide⟩

/-- Witness for the amended C2: the budget-expiry return on a concrete
missing reader, and the characterisation applied to a concrete full
`Read` that ends in end-of-stream. -/
theorem claim2_eof_only_via_budget_witness :
    run .regA { rEx with w := some 100 } 600 0 [.op (.openErr true 2)]
        = some ({ rEx with w := some 100 }, 600, [], some .eof)
    ∧ (([] : List Nat) = []
        ∧ ∃ w0, ({ rEx with w := some 250 } : Reader).w = some w0
            ∧ ({ rEx with w := some 250 } : Reader).EOFWait ≤ 750 - w0) :=
  ⟨(claim2_eof_only_via_budget .regA { rEx with w := some 100 } 600 0 [] []
      (rEx, 0, [], none)).1 100 2 rfl (by decide),
   (claim2_eof_only_via_budget .outer rEx 0 0
      [.rd [] (some .eof), .wt false, .st (.error .notExist),
       .rd [] (some .eof), .op (.openErr true 2), .wt false,
       .rd [] (some .eof), .op (.openErr true 2), .wt false,
       .rd [] (some .eof), .op (.openErr true 2)] []
      ({ rEx with w := some 250 }, 750, [], some .eof)).2 (by decide) rfl⟩

/-- Claim C7, amended: `Read` returns zero bytes with a nil error only
by passing through a `(0, nil)` result of the underlying `r.f.Read`
itself (tail.go line 151); on any trace in which the underlying read
never yields `(0, nil)`, every `Read` return delivers at least one byte,
or end-of-stream, or a non-nil error. -/
theorem claim7_zero_nil_passthrough (phase : Phase) (r : Reader)
    (c wa : Nat) (evs : List Ev) (out : ReadOut) :
    (∀ bs e, Ev.rd bs e ∈ evs → bs = [] → e ≠ none) →
    run phase r c wa evs = some out → out.2.2.1 = [] →
    out.2.2.2 ≠ none := by
  intro hin h hbs hnone
  exact hin [] none ((run_main evs phase r c wa out h).2.1 hbs hnone) rfl rfl

/-- Counterexample to C7 as stated: when the underlying read yields zero
bytes with no error, `Read` returns `(0, nil)` — zero bytes together
with a nil error. -/
theorem claim7_counterexample :
    rEx.Read 0 [.rd [] none] = some (rEx, 0, [], none) := by decide

/-- Witness for the amended C7: a trace whose only underlying read is
`(0, io.EOF)` ends in a cancellation, and the returned error is indeed
not nil. -/
theorem claim7_zero_nil_passthrough_witness :
    ((rEx, 0, [], some GErr.timeout) : ReadOut).2.2.2 ≠ none :=
  claim7_zero_nil_passthrough .outer rEx 0 0 [.rd [] (some .eof), .wt true]
    (rEx, 0, [], some GErr.timeout)
    (by intro bs e hmem hb
        rcases List.mem_cons.mp hmem with h1 | h1
        · injection h1 with h1a h1b
          subst h1b
          simp
        · rcases List.mem_cons.mp h1 with h2 | h2
          · exact Ev.noConfusion h2
          · simp at h2)
    (by decide) rfl

/-- Claim C10: `Stat` returns exactly the snapshot captured at the most
recent successful open — classification rewrites only the separately
stored `lastModTime`, seek and close touch no snapshot field, and a read
call whose trace contains no successful open leaves the snapshot
untouched, however many poll iterations, reads and classifications it
performs. -/
theorem claim10_stat_snapshot (r : Reader) :
    (r.Stat = r.fi)
    ∧ (∀ res s r2, r.status res = .ok (s, r2) → r2 = { r with m := r2.m })
    ∧ (∀ res : Int × Option Nat, (r.Seek res).1.fi = r.fi)
    ∧ (r.close.1 = r)
    ∧ (∀ (phase : Phase) (c wa : Nat) (evs : List Ev) (out : ReadOut),
        run phase r c wa evs = some out →
        (∀ ev ∈ evs, ev.isOpenOk = false) → out.1.fi = r.fi) := by
  refine ⟨rfl, status_ok_frame r, ?_, rfl, ?_⟩
  · intro res
    rcases res with ⟨p, e⟩
    rcases e with _ | code <;> rfl
  · intro phase c wa evs out h hall
    exact (run_main evs phase r c wa out h).2.2 hall

/-- Witness for C10: a concrete read call (poll, classification as
`modified`, delivery of three bytes, no successful open) preserves the
snapshot captured at open time. -/
theorem claim10_stat_snapshot_witness :
    ({ rEx with pos := 3, n := 3, m := 7 } : Reader).fi = rEx.fi :=
  (claim10_stat_snapshot rEx).2.2.2.2 .outer 0 0
    [.rd [] (some .eof), .wt false, .st (.ok ⟨1, 3, 7⟩),
     .rd [97, 98, 99] none]
    ({ rEx with pos := 3, n := 3, m := 7 }, 250, [97, 98, 99], none)
    (by decide) (by decide)

end Tail
